import Mathlib

/-!
Verification of the Conway's Game of Life implementation
(`game_of_life_text.c` and `game_of_life_visual.c`).

Embedding conventions:
* A cell holds `'*'` (alive) or `'.'` (dead) in the C code; we embed the cell
  state as `Bool` with `true` for ALIVE (`'*'`) and `false` for DEAD (`'.'`).
* `GRID_SIZE` is the literal `100`; a grid is a total function
  `Fin 100 → Fin 100 → Bool` (the C `char grid[100][100]`).
* The toroidal index computation `(x + GRID_SIZE) % GRID_SIZE` on C `int`s is
  embedded as `wrap : Int → Fin 100` with the same formula.
* The per-generation compute loop writes `next_grid[i][j]` for a sequence of
  cells; we embed one write as `set_cell` and the whole compute phase as a
  left fold of writes over the list of cells processed, in processing order.
  The serial loops process `all_cells` in row-major order; a parallel
  `omp parallel for` processes the same set of cells in some interleaved
  order, modelled by an arbitrary per-generation list of cells that covers
  every cell (each worker writes only cells it owns, reading only the stable
  source grid, so any interleaving is equivalent to some sequential order).
* The publication step (`memcpy(grid, next_grid, ...)`, or the element-wise
  copy loop in the visual program) replaces `grid` with `next_grid`.  With no
  concurrent external reader the `omp critical` wrapper around the copy has
  no observable effect, so the with-barrier and no-lock variants share the
  same publication embedding; the scheduling nondeterminism is retained in
  the schedule parameter.
* Wall-clock times (`double`) in the benchmark harness are embedded as `ℚ`:
  the harness logic only compares and selects, which the rational model
  reflects faithfully.
-/

/-- A grid cell coordinate: row or column index in `[0, 100)`. -/
abbrev Coord := Fin 100

/-- The `char grid[GRID_SIZE][GRID_SIZE]` array: a total assignment of a
cell state (`true` = `'*'` = ALIVE) to every coordinate pair. -/
def Grid := Coord → Coord → Bool

/-- Toroidal wrap: the C expression `(x + GRID_SIZE) % GRID_SIZE` evaluated
on `int` arithmetic, producing a valid index. -/
def wrap (x : Int) : Coord :=
  ⟨((x + 100) % 100).toNat, by omega⟩

/-- The offsets `(i, j)` enumerated by the two nested neighbor loops
`for i in -1..1, for j in -1..1` of `count_neighbors`, in loop order. -/
def offsets : List (Int × Int) :=
  [(-1, -1), (-1, 0), (-1, 1), (0, -1), (0, 0), (0, 1), (1, -1), (1, 0), (1, 1)]

/-- `count_neighbors` from both source files: accumulate over the 3×3 offset
window, skipping `(0,0)` (the cell itself), counting the live cells at the
toroidally wrapped positions. -/
def count_neighbors (g : Grid) (row col : Coord) : Nat :=
  offsets.foldl
    (fun count d =>
      if d.1 = 0 ∧ d.2 = 0 then count
      else if g (wrap (row.val + d.1)) (wrap (col.val + d.2)) then count + 1
      else count)
    0

/-- The per-cell transition rule, inlined identically in every update variant
of both source files: a live cell dies iff `neighbors < 2 || neighbors > 3`,
a dead cell becomes live iff `neighbors == 3`. -/
def transition_rule (alive : Bool) (neighbors : Nat) : Bool :=
  if alive then
    if neighbors < 2 ∨ neighbors > 3 then false else true
  else
    if neighbors = 3 then true else false

/-- The value each update variant stores into `next_grid[i][j]`: the
transition rule applied to the current state and live-neighbor count. -/
def next_cell (g : Grid) (i j : Coord) : Bool :=
  transition_rule (g i j) (count_neighbors g i j)

/-- One array store `grid[i][j] = v`. -/
def set_cell (g : Grid) (i j : Coord) (v : Bool) : Grid :=
  fun a b => if a = i ∧ b = j then v else g a b

/-- The compute phase of one generation: process the given list of cells in
order, storing `next_cell` of the source grid into the scratch grid. -/
def compute_cells (g : Grid) (cells : List (Coord × Coord)) (scratch : Grid) : Grid :=
  cells.foldl (fun acc c => set_cell acc c.1 c.2 (next_cell g c.1 c.2)) scratch

/-- The cells visited by the serial double loop
`for i in 0..99, for j in 0..99`, in row-major order. -/
def all_cells : List (Coord × Coord) :=
  (List.finRange 100).product (List.finRange 100)

/-- `update_grid_serial` from `game_of_life_visual.c` (identical to one
iteration of `simulate_serial` in `game_of_life_text.c`): compute every cell
of the next generation into the scratch grid, then copy the scratch grid back
over the current grid.  The state is the `(grid, next_grid)` pair of arrays. -/
def update_grid_serial (st : Grid × Grid) : Grid × Grid :=
  let n := compute_cells st.1 all_cells st.2
  (n, n)

/-- One iteration of the text program's `simulate_serial` loop body:
row-major compute phase followed by the `memcpy` publication. -/
def serial_generation (st : Grid × Grid) : Grid × Grid :=
  let n := compute_cells st.1 all_cells st.2
  (n, n)

/-- `simulate_serial` from `game_of_life_text.c`: 100 generations
(`ITERATIONS`), each a row-major compute phase plus the `memcpy`. -/
def simulate_serial (st : Grid × Grid) : Grid × Grid :=
  serial_generation^[100] st

/-- One iteration of a parallel variant's loop body, with the interleaved
order in which the worker threads' cell writes occur given explicitly as the
list `cells`.  After the implicit join of `omp parallel for`, the single
remaining thread performs the publication copy (whether or not it is wrapped
in `omp critical` is unobservable with no concurrent external reader). -/
def sched_generation (cells : List (Coord × Coord)) (st : Grid × Grid) : Grid × Grid :=
  let n := compute_cells st.1 cells st.2
  (n, n)

/-- Run `n` generations, the `k`-th using the cell processing order
`sched k`. -/
def run_sched (sched : Nat → List (Coord × Coord)) : Nat → Grid × Grid → Grid × Grid
  | 0, st => st
  | n + 1, st => sched_generation (sched n) (run_sched sched n st)

/-- `simulate_parallel_static` from `game_of_life_text.c`
(`schedule(static,1)`, publication inside `omp critical`): 100 generations;
the static round-robin row assignment and thread interleaving determine the
per-generation cell write order `sched k`. -/
def simulate_parallel_static (sched : Nat → List (Coord × Coord))
    (st : Grid × Grid) : Grid × Grid :=
  run_sched sched 100 st

/-- `simulate_parallel_guided` from `game_of_life_text.c`
(`schedule(guided,1)`, publication inside `omp critical`). -/
def simulate_parallel_guided (sched : Nat → List (Coord × Coord))
    (st : Grid × Grid) : Grid × Grid :=
  run_sched sched 100 st

/-- `simulate_parallel_static_no_critical` from `game_of_life_text.c`
(`schedule(static,1)`, publication not guarded). -/
def simulate_parallel_static_no_critical (sched : Nat → List (Coord × Coord))
    (st : Grid × Grid) : Grid × Grid :=
  run_sched sched 100 st

/-- `simulate_parallel_guided_no_critical` from `game_of_life_text.c`
(`schedule(guided,1)`, publication not guarded). -/
def simulate_parallel_guided_no_critical (sched : Nat → List (Coord × Coord))
    (st : Grid × Grid) : Grid × Grid :=
  run_sched sched 100 st

/-- A schedule covers the grid when every cell is processed. -/
def covers (cells : List (Coord × Coord)) : Prop :=
  ∀ c : Coord × Coord, c ∈ cells

/-- The mathematical one-generation step function: the value every variant
computes for every cell from the previous generation's grid. -/
def step_fun (g : Grid) : Grid := fun i j => next_cell g i j

/-- The all-DEAD grid (every cell `'.'`). -/
def dead_grid : Grid := fun _ _ => false

/-- The 8 toroidally wrapped Moore neighbors of cell `(i, j)`: the offset
window without `(0,0)`, each offset wrapped exactly as `count_neighbors`
wraps it. -/
def neighbor_list (i j : Coord) : List (Coord × Coord) :=
  (offsets.filter fun d => decide ¬(d.1 = 0 ∧ d.2 = 0)).map
    (fun d => (wrap (i.val + d.1), wrap (j.val + d.2)))

/-- The grid whose ALIVE cells are exactly the cells in the list `S`. -/
def cells_grid (S : List (Coord × Coord)) : Grid :=
  fun i j => decide ((i, j) ∈ S)

/-- The grid translated toroidally by `(dr, dc)` (cell `(i, j)` of the
shifted grid is cell `(i - dr, j - dc)` of the original). -/
def shift_grid (dr dc : Coord) (g : Grid) : Grid :=
  fun i j => g (i - dr) (j - dc)

/-- The grid holding a single 2×2 block of ALIVE cells with upper-left
corner `(r, c)` (toroidally: rows `r, r+1`, columns `c, c+1`), all other
cells DEAD. -/
def block_grid (r c : Coord) : Grid :=
  fun i j => decide ((i = r ∨ i = r + 1) ∧ (j = c ∨ j = c + 1))

/-- The grid `g` is supported inside the row range `[rlo, rhi]` and column
range `[clo, chi]`: every ALIVE cell lies in that box. -/
def supp_in (g : Grid) (rlo rhi clo chi : Nat) : Prop :=
  ∀ i j : Coord, g i j = true → rlo ≤ i.val ∧ i.val ≤ rhi ∧ clo ≤ j.val ∧ j.val ≤ chi

/-- The coordinates whose value lies in `[lo, hi]`. -/
def span (lo hi : Nat) : List Coord :=
  (List.finRange 100).filter fun x => decide (lo ≤ x.val ∧ x.val ≤ hi)

/-- The five glider cells placed by `initialize_glider_grid`
(`start_row = start_col = 10`), before its extra random cells. -/
def glider_cells : List (Coord × Coord) :=
  [(10, 11), (11, 12), (12, 10), (12, 11), (12, 12)]

/-- The glider placement of `initialize_glider_grid` in
`game_of_life_visual.c` with the random-cell addition disabled (as the
claim and the spec's golden test require): clear the grid, then set the
five glider cells, in source order. -/
def glider_grid : Grid :=
  set_cell (set_cell (set_cell (set_cell (set_cell
    dead_grid 10 11 true) 11 12 true) 12 10 true) 12 11 true) 12 12 true

/-- The glider pattern after one serial generation (golden value). -/
def glider_cells_1 : List (Coord × Coord) :=
  [(11, 10), (11, 12), (12, 11), (12, 12), (13, 11)]

/-- The glider pattern after two serial generations (golden value). -/
def glider_cells_2 : List (Coord × Coord) :=
  [(11, 12), (12, 10), (12, 12), (13, 11), (13, 12)]

/-- The glider pattern after three serial generations (golden value). -/
def glider_cells_3 : List (Coord × Coord) :=
  [(11, 11), (12, 12), (12, 13), (13, 11), (13, 12)]

/-- The glider pattern after four serial generations (golden value):
the original five cells translated by `(1, 1)`. -/
def glider_cells_4 : List (Coord × Coord) :=
  [(11, 12), (12, 13), (13, 11), (13, 12), (13, 13)]

/-- The cells of the 2×2 block with corner `(50, 50)`. -/
def block_cells : List (Coord × Coord) :=
  [(50, 50), (50, 51), (51, 50), (51, 51)]

/-- `start_row` (and `start_col`) of the centered-block policy:
`(GRID_SIZE - CENTER_SIZE) / 2`. -/
def start_row : Nat := (100 - 10) / 2

/-- The cells written by the two nested `CENTER_SIZE` loops of the
centered-block policy: `(start_row + i, start_col + j)` for
`i, j ∈ [0, 10)`, in loop order. -/
def center_cells : List (Coord × Coord) :=
  ((List.finRange 10).product (List.finRange 10)).map
    (fun d => (⟨start_row + d.1.val, by have := d.1.isLt; simp [start_row]; omega⟩,
               ⟨start_row + d.2.val, by have := d.2.isLt; simp [start_row]; omega⟩))

/-- `initialize_grid` from both source files (the identifier is shortened
to `init_grid` here): set every cell DEAD, then set the centered 10×10
block ALIVE, in source write order. -/
def init_grid : Grid :=
  center_cells.foldl (fun g c => set_cell g c.1 c.2 true) dead_grid

/-- `count_live_cells` from `game_of_life_visual.c`: the double loop
accumulating 1 for every ALIVE cell (the OpenMP `reduction(+:count)` is a
deterministic integer sum). -/
def count_live_cells (g : Grid) : Nat :=
  (List.finRange 100).foldl
    (fun count i =>
      (List.finRange 100).foldl (fun c j => if g i j then c + 1 else c) count)
    0

/-- The command-line density handling in `main` of `game_of_life_visual.c`:
a parsed density outside the open interval `(0,1)` is replaced by the
default `0.3` (the C `float` values are embedded as rationals; the code
only compares against `0` and `1` and substitutes the constant). -/
def clamp_density (d : ℚ) : ℚ :=
  if d ≤ 0 ∨ d ≥ 1 then 3 / 10 else d

/-- The five variant labels printed by the benchmark harness, in
measurement order. -/
def variant_labels : List String :=
  ["Serial", "Parallel (Static)", "Parallel (Guided)",
   "Parallel (Static No Critical)", "Parallel (Guided No Critical)"]

/-- The five mean durations in measurement order. -/
def mean_times (s st g snc gnc : ℚ) : List ℚ := [s, st, g, snc, gnc]

/-- The best-variant selection of the benchmark harness in
`game_of_life_text.c` `main`: start from Serial, then replace the running
best on every strictly smaller mean, in order static, guided,
static-no-critical, guided-no-critical; returns the printed label.
Durations are embedded as rationals (the code only compares them). -/
def best_version (s st g snc gnc : ℚ) : String :=
  let bt0 := s
  let bv0 := "Serial"
  let bt1 := if st < bt0 then st else bt0
  let bv1 := if st < bt0 then "Parallel (Static)" else bv0
  let bt2 := if g < bt1 then g else bt1
  let bv2 := if g < bt1 then "Parallel (Guided)" else bv1
  let bt3 := if snc < bt2 then snc else bt2
  let bv3 := if snc < bt2 then "Parallel (Static No Critical)" else bv2
  let bv4 := if gnc < bt3 then "Parallel (Guided No Critical)" else bv3
  bv4

section BasicLemmas

theorem mem_all_cells (c : Coord × Coord) : c ∈ all_cells := by
  cases c with
  | mk i j =>
    exact List.pair_mem_product.mpr ⟨List.mem_finRange i, List.mem_finRange j⟩

theorem covers_all_cells : covers all_cells := mem_all_cells

/-- Evaluating the compute phase: a cell that is processed holds the
freshly computed next state; a cell that is not holds its old scratch
value.  (The value written for a cell does not depend on where in the
order it is processed, since it reads only the stable source grid.) -/
theorem compute_cells_apply (g : Grid) (cells : List (Coord × Coord))
    (s : Grid) (i j : Coord) :
    compute_cells g cells s i j
      = if (i, j) ∈ cells then next_cell g i j else s i j := by
  induction cells generalizing s with
  | nil => simp [compute_cells]
  | cons c cs ih =>
    rw [compute_cells, List.foldl_cons, ← compute_cells, ih]
    by_cases hmem : (i, j) ∈ cs
    · simp [hmem]
    · by_cases hc : (i, j) = c
      · subst hc
        simp [hmem, set_cell]
      · have : ¬((i, j) ∈ c :: cs) := by
          simp only [List.mem_cons]
          tauto
        simp only [hmem, if_neg this, if_neg hmem, set_cell]
        rcases c with ⟨a, b⟩
        have : ¬(i = a ∧ j = b) := by
          intro ⟨h1, h2⟩
          exact hc (by simp [h1, h2])
        simp [this]

theorem compute_cells_covers {cells : List (Coord × Coord)} (h : covers cells)
    (g s : Grid) : compute_cells g cells s = step_fun g := by
  funext i j
  rw [compute_cells_apply]
  simp [h (i, j), step_fun]

theorem sched_generation_covers {cells : List (Coord × Coord)} (h : covers cells)
    (st : Grid × Grid) : sched_generation cells st = serial_generation st := by
  simp [sched_generation, serial_generation,
    compute_cells_covers h, compute_cells_covers covers_all_cells]

theorem serial_generation_eq (st : Grid × Grid) :
    serial_generation st = (step_fun st.1, step_fun st.1) := by
  simp [serial_generation, compute_cells_covers covers_all_cells]

theorem run_sched_eq_serial {sched : Nat → List (Coord × Coord)}
    (h : ∀ k, covers (sched k)) (n : Nat) (st : Grid × Grid) :
    run_sched sched n st = serial_generation^[n] st := by
  induction n with
  | zero => rfl
  | succ n ih =>
    rw [run_sched, ih, Function.iterate_succ_apply',
      sched_generation_covers (h n)]

end BasicLemmas

/-- Claim C1: for every cell state `s ∈ {ALIVE, DEAD}` and every neighbor
count `n ∈ 0..8`, the per-cell transition applied by every update variant
(each variant stores `next_cell`, i.e. `transition_rule` of the current
state and neighbor count, into the processed cell) returns ALIVE iff the
standard survival/birth table says so: a live cell survives exactly on
counts 2 and 3, dies on `< 2` or `> 3`; a dead cell is born exactly on
count 3 and stays dead otherwise. -/
theorem claim1_transition_rule_table :
    (∀ (s : Bool) (n : Fin 9),
      (s = true ∧ (n.val = 2 ∨ n.val = 3) → transition_rule s n.val = true) ∧
      (s = true ∧ (n.val < 2 ∨ n.val > 3) → transition_rule s n.val = false) ∧
      (s = false ∧ n.val = 3 → transition_rule s n.val = true) ∧
      (s = false ∧ n.val ≠ 3 → transition_rule s n.val = false)) ∧
    (∀ (g : Grid) (cells : List (Coord × Coord)) (s : Grid) (i j : Coord),
      (i, j) ∈ cells →
      compute_cells g cells s i j
        = transition_rule (g i j) (count_neighbors g i j)) := by
  constructor
  · decide
  · intro g cells s i j hmem
    rw [compute_cells_apply, if_pos hmem]
    rfl

/-- Witness for C1: the second conjunct's hypothesis discharged at a
concrete input (the dead grid, the row-major cell list, cell `(0,0)`). -/
theorem claim1_witness :
    compute_cells (fun _ _ => false) all_cells (fun _ _ => false) 0 0
      = transition_rule ((fun (_ _ : Coord) => false) 0 0)
          (count_neighbors (fun _ _ => false) 0 0) :=
  claim1_transition_rule_table.2 (fun _ _ => false) all_cells
    (fun _ _ => false) 0 0 (mem_all_cells (0, 0))

section SchedLemmas

theorem covers_reverse_all_cells : covers all_cells.reverse :=
  fun c => List.mem_reverse.mpr (mem_all_cells c)

theorem update_grid_serial_eq_serial_generation :
    update_grid_serial = serial_generation := rfl

theorem count_neighbors_dead (i j : Coord) :
    count_neighbors dead_grid i j = 0 := rfl

theorem step_fun_dead : step_fun dead_grid = dead_grid := by
  funext i j
  rfl

/-- A grid fixed by the step function stays in the first component of the
state under any number of serial generations, whatever the scratch grid. -/
theorem fst_fixed_serial {G : Grid} (hG : step_fun G = G) :
    ∀ (k : Nat) (st : Grid × Grid), st.1 = G →
      (serial_generation^[k] st).1 = G := by
  intro k
  induction k with
  | zero => intro st h; simpa using h
  | succ k ih =>
    intro st h
    rw [Function.iterate_succ_apply, serial_generation_eq, h, hG]
    exact ih (G, G) rfl

/-- Same fixed-point preservation for any covering schedule. -/
theorem fst_fixed_sched {G : Grid} (hG : step_fun G = G)
    {sched : Nat → List (Coord × Coord)} (hc : ∀ n, covers (sched n)) :
    ∀ (k : Nat) (st : Grid × Grid), st.1 = G →
      (run_sched sched k st).1 = G := by
  intro k
  induction k with
  | zero => intro st h; simpa [run_sched] using h
  | succ k ih =>
    intro st h
    rw [run_sched, sched_generation_covers (hc k), serial_generation_eq,
      ih st h, hG]

/-- After at least one serial generation, the whole state is independent of
the initial scratch grid contents. -/
theorem serial_scratch_irrelevant (k : Nat) (g s₁ s₂ : Grid) :
    serial_generation^[k + 1] (g, s₁) = serial_generation^[k + 1] (g, s₂) := by
  rw [Function.iterate_succ_apply, Function.iterate_succ_apply,
    serial_generation_eq, serial_generation_eq]

/-- Same scratch-independence for any covering schedule. -/
theorem sched_scratch_irrelevant {sched : Nat → List (Coord × Coord)}
    (hc : ∀ n, covers (sched n)) (k : Nat) (g s₁ s₂ : Grid) :
    run_sched sched (k + 1) (g, s₁) = run_sched sched (k + 1) (g, s₂) := by
  induction k with
  | zero =>
    show sched_generation _ _ = sched_generation _ _
    rw [sched_generation_covers (hc 0), sched_generation_covers (hc 0),
      serial_generation_eq, serial_generation_eq]
    rfl
  | succ k ih =>
    show sched_generation _ (run_sched sched (k + 1) (g, s₁))
      = sched_generation _ (run_sched sched (k + 1) (g, s₂))
    rw [ih]

end SchedLemmas

/-- Claim C2: for every initial grid (and scratch grid), the
static-with-barrier, guided-with-barrier, static-no-lock, and guided-no-lock
update variants — whatever per-generation cell processing orders their
scheduling produces, as long as each generation processes every cell — run
with no concurrent external reader, each produce the same final grid as the
serial variant after the fixed 100 generations. -/
theorem claim2_parallel_variants_agree_with_serial
    (st : Grid × Grid) (sch1 sch2 sch3 sch4 : Nat → List (Coord × Coord))
    (h1 : ∀ k, covers (sch1 k)) (h2 : ∀ k, covers (sch2 k))
    (h3 : ∀ k, covers (sch3 k)) (h4 : ∀ k, covers (sch4 k)) :
    (simulate_parallel_static sch1 st).1 = (simulate_serial st).1 ∧
    (simulate_parallel_guided sch2 st).1 = (simulate_serial st).1 ∧
    (simulate_parallel_static_no_critical sch3 st).1 = (simulate_serial st).1 ∧
    (simulate_parallel_guided_no_critical sch4 st).1 = (simulate_serial st).1 :=
  ⟨congrArg Prod.fst (run_sched_eq_serial h1 100 st),
   congrArg Prod.fst (run_sched_eq_serial h2 100 st),
   congrArg Prod.fst (run_sched_eq_serial h3 100 st),
   congrArg Prod.fst (run_sched_eq_serial h4 100 st)⟩

/-- Witness for C2: the coverage hypotheses discharged for the concrete
reverse-row-major schedule, starting from the all-DEAD grid pair. -/
theorem claim2_witness :
    (simulate_parallel_static (fun _ => all_cells.reverse)
        (dead_grid, dead_grid)).1 = (simulate_serial (dead_grid, dead_grid)).1 ∧
    (simulate_parallel_guided (fun _ => all_cells.reverse)
        (dead_grid, dead_grid)).1 = (simulate_serial (dead_grid, dead_grid)).1 ∧
    (simulate_parallel_static_no_critical (fun _ => all_cells.reverse)
        (dead_grid, dead_grid)).1 = (simulate_serial (dead_grid, dead_grid)).1 ∧
    (simulate_parallel_guided_no_critical (fun _ => all_cells.reverse)
        (dead_grid, dead_grid)).1 = (simulate_serial (dead_grid, dead_grid)).1 :=
  claim2_parallel_variants_agree_with_serial (dead_grid, dead_grid)
    (fun _ => all_cells.reverse) (fun _ => all_cells.reverse)
    (fun _ => all_cells.reverse) (fun _ => all_cells.reverse)
    (fun _ => covers_reverse_all_cells) (fun _ => covers_reverse_all_cells)
    (fun _ => covers_reverse_all_cells) (fun _ => covers_reverse_all_cells)

/-- Claim C6: the all-DEAD grid is preserved by the generation update: for
every number of generations `k ≥ 0` and every initial scratch grid, applying
any update variant (the serial text variant, the visual serial variant, or
any covering-schedule parallel variant) `k` times to the all-DEAD grid
yields the all-DEAD grid. -/
theorem claim6_dead_grid_invariant (s : Grid) (k : Nat)
    (sched : Nat → List (Coord × Coord)) (hc : ∀ n, covers (sched n)) :
    (serial_generation^[k] (dead_grid, s)).1 = dead_grid ∧
    (update_grid_serial^[k] (dead_grid, s)).1 = dead_grid ∧
    (run_sched sched k (dead_grid, s)).1 = dead_grid :=
  ⟨fst_fixed_serial step_fun_dead k (dead_grid, s) rfl,
   by
    rw [update_grid_serial_eq_serial_generation]
    exact fst_fixed_serial step_fun_dead k (dead_grid, s) rfl,
   fst_fixed_sched step_fun_dead hc k (dead_grid, s) rfl⟩

/-- Witness for C6: discharged at two generations of the row-major
schedule, with an all-ALIVE scratch grid. -/
theorem claim6_witness :
    (serial_generation^[2] (dead_grid, fun _ _ => true)).1 = dead_grid ∧
    (update_grid_serial^[2] (dead_grid, fun _ _ => true)).1 = dead_grid ∧
    (run_sched (fun _ => all_cells) 2 (dead_grid, fun _ _ => true)).1
      = dead_grid :=
  claim6_dead_grid_invariant (fun _ _ => true) 2 (fun _ => all_cells)
    (fun _ => covers_all_cells)

section NeighborLemmas

theorem count_fold_eq_countP (g : Grid) (r c : Coord)
    (l : List (Int × Int)) (acc : Nat) :
    l.foldl
      (fun count d =>
        if d.1 = 0 ∧ d.2 = 0 then count
        else if g (wrap (r.val + d.1)) (wrap (c.val + d.2)) then count + 1
        else count)
      acc
    = acc + ((l.filter fun d => decide ¬(d.1 = 0 ∧ d.2 = 0)).map
        (fun d => (wrap (r.val + d.1), wrap (c.val + d.2)))).countP
          (fun p => g p.1 p.2) := by
  induction l generalizing acc with
  | nil => simp
  | cons d l ih =>
    rw [List.foldl_cons]
    by_cases h0 : d.1 = 0 ∧ d.2 = 0
    · rw [if_pos h0, ih, List.filter_cons_of_neg
        (by simp only [decide_eq_true_eq, not_not]; exact h0)]
    · rw [if_neg h0, List.filter_cons_of_pos
        (by simp only [decide_eq_true_eq]; exact h0), List.map_cons]
      by_cases hg : g (wrap (r.val + d.1)) (wrap (c.val + d.2))
      · rw [if_pos hg, ih, List.countP_cons_of_pos _ _ (by simpa using hg)]
        omega
      · rw [if_neg hg, ih,
          List.countP_cons_of_neg _ _ (by simpa using hg)]

theorem count_neighbors_eq_countP (g : Grid) (i j : Coord) :
    count_neighbors g i j
      = (neighbor_list i j).countP (fun p => g p.1 p.2) := by
  rw [count_neighbors, count_fold_eq_countP, neighbor_list, Nat.zero_add]

theorem neighbor_list_length (i j : Coord) :
    (neighbor_list i j).length = 8 := by
  rw [neighbor_list, List.length_map]
  rfl

/-- The wrap formula is injective on any offset window of width below the
grid size. -/
theorem wrap_window_inj (x : Coord) {a b : Int}
    (ha : -1 ≤ a ∧ a ≤ 1) (hb : -1 ≤ b ∧ b ≤ 1)
    (h : wrap (x.val + a) = wrap (x.val + b)) : a = b := by
  have hx := x.isLt
  have hv := congrArg Fin.val h
  simp only [wrap] at hv
  omega

theorem offsets_filter_bounds :
    ∀ d ∈ offsets.filter fun d => decide ¬(d.1 = 0 ∧ d.2 = 0),
      (-1 ≤ d.1 ∧ d.1 ≤ 1) ∧ (-1 ≤ d.2 ∧ d.2 ≤ 1) ∧ ¬(d.1 = 0 ∧ d.2 = 0) := by
  decide

theorem neighbor_list_nodup (i j : Coord) : (neighbor_list i j).Nodup := by
  rw [neighbor_list]
  refine List.Nodup.map_on ?_ (by decide)
  intro d hd d' hd' heq
  obtain ⟨hb1, hb2, -⟩ := offsets_filter_bounds d hd
  obtain ⟨hb1', hb2', -⟩ := offsets_filter_bounds d' hd'
  obtain ⟨h1, h2⟩ := Prod.mk.injEq .. ▸ heq
  exact Prod.ext (wrap_window_inj i hb1 hb1' h1) (wrap_window_inj j hb2 hb2' h2)

theorem wrap_val (x : Coord) : wrap ((x.val : Int) + 0) = x := by
  have hx := x.isLt
  apply Fin.ext
  simp only [wrap]
  omega

theorem neighbor_list_not_self (i j : Coord) : (i, j) ∉ neighbor_list i j := by
  rw [neighbor_list]
  intro hmem
  obtain ⟨d, hd, heq⟩ := List.mem_map.mp hmem
  obtain ⟨hb1, hb2, hne⟩ := offsets_filter_bounds d hd
  obtain ⟨h1, h2⟩ := Prod.mk.injEq .. ▸ heq
  exact hne ⟨wrap_window_inj i hb1 (by omega) (h1.trans (wrap_val i).symm),
    wrap_window_inj j hb2 (by omega) (h2.trans (wrap_val j).symm)⟩

end NeighborLemmas

section ShiftLemmas

/-- Wrapping an offset and then translating equals translating and then
wrapping the offset. -/
theorem wrap_shift (x v : Coord) (d : Int) :
    wrap ((x.val : Int) + d) - v = wrap (((x - v).val : Int) + d) := by
  have hx := x.isLt
  have hv := v.isLt
  apply Fin.ext
  rw [Fin.sub_def, Fin.sub_def]
  simp only [wrap]
  omega

theorem count_shift (dr dc : Coord) (g : Grid) (i j : Coord) :
    count_neighbors (shift_grid dr dc g) i j
      = count_neighbors g (i - dr) (j - dc) := by
  simp only [count_neighbors, shift_grid, wrap_shift]

theorem step_shift (dr dc : Coord) (g : Grid) :
    step_fun (shift_grid dr dc g) = shift_grid dr dc (step_fun g) := by
  funext i j
  simp only [step_fun, next_cell, count_shift, shift_grid]

end ShiftLemmas

section LocalityLemmas

theorem count_neighbors_eq_zero {g : Grid} {i j : Coord}
    (h : ∀ p ∈ neighbor_list i j, g p.1 p.2 = false) :
    count_neighbors g i j = 0 := by
  rw [count_neighbors_eq_countP]
  exact List.countP_eq_zero.mpr fun p hp => by simp [h p hp]

/-- Outside the one-cell expansion of a box supporting `g`, the next
generation is dead: the cell and all its neighbors are dead.  The box must
not touch the boundary, so that the toroidal wrap plays no role. -/
theorem step_dead_outside {g : Grid} {rlo rhi clo chi : Nat}
    (hs : supp_in g rlo rhi clo chi)
    (h1 : 1 ≤ rlo) (h2 : rhi ≤ 98) (h3 : 1 ≤ clo) (h4 : chi ≤ 98)
    {i j : Coord}
    (hout : ¬(rlo - 1 ≤ i.val ∧ i.val ≤ rhi + 1 ∧
      clo - 1 ≤ j.val ∧ j.val ≤ chi + 1)) :
    step_fun g i j = false := by
  have hi := i.isLt
  have hj := j.isLt
  have hij : g i j = false := by
    cases hb : g i j
    · rfl
    · obtain ⟨a1, a2, a3, a4⟩ := hs i j hb
      exact absurd ⟨by omega, by omega, by omega, by omega⟩ hout
  have hcnt : count_neighbors g i j = 0 := by
    apply count_neighbors_eq_zero
    intro p hp
    cases hb : g p.1 p.2
    · rfl
    · exfalso
      rw [neighbor_list] at hp
      obtain ⟨d0, hd0, hpd⟩ := List.mem_map.mp hp
      obtain ⟨⟨e1, e2⟩, ⟨e3, e4⟩, -⟩ := offsets_filter_bounds d0 hd0
      subst hpd
      obtain ⟨b1, b2, b3, b4⟩ := hs _ _ hb
      simp only [wrap] at b1 b2 b3 b4
      exact hout ⟨by omega, by omega, by omega, by omega⟩
  rw [step_fun, next_cell, hij, hcnt]
  rfl

theorem supp_in_cells_grid {S : List (Coord × Coord)} {rlo rhi clo chi : Nat}
    (h : (S.all fun c => decide (rlo ≤ c.1.val ∧ c.1.val ≤ rhi ∧
      clo ≤ c.2.val ∧ c.2.val ≤ chi)) = true) :
    supp_in (cells_grid S) rlo rhi clo chi := by
  intro i j hg
  have hm : (i, j) ∈ S := by simpa [cells_grid] using hg
  simpa using List.all_eq_true.mp h (i, j) hm

theorem mem_span {lo hi : Nat} {x : Coord} (h1 : lo ≤ x.val) (h2 : x.val ≤ hi) :
    x ∈ span lo hi :=
  List.mem_filter.mpr ⟨List.mem_finRange x, by simp [h1, h2]⟩

/-- A full one-generation equality follows from support bounds and an
exhaustive check on the expanded window. -/
theorem step_eq_of_window {A B : Grid} {rlo rhi clo chi : Nat}
    (hsA : supp_in A rlo rhi clo chi)
    (hsB : supp_in B (rlo - 1) (rhi + 1) (clo - 1) (chi + 1))
    (h1 : 1 ≤ rlo) (h2 : rhi ≤ 98) (h3 : 1 ≤ clo) (h4 : chi ≤ 98)
    (hW : ((span (rlo - 1) (rhi + 1)).all fun i =>
            (span (clo - 1) (chi + 1)).all fun j =>
              step_fun A i j == B i j) = true) :
    step_fun A = B := by
  funext i j
  by_cases hin : rlo - 1 ≤ i.val ∧ i.val ≤ rhi + 1 ∧
      clo - 1 ≤ j.val ∧ j.val ≤ chi + 1
  · obtain ⟨a1, a2, a3, a4⟩ := hin
    exact eq_of_beq (List.all_eq_true.mp
      (List.all_eq_true.mp hW i (mem_span a1 a2)) j (mem_span a3 a4))
  · rw [step_dead_outside hsA h1 h2 h3 h4 hin]
    cases hb : B i j
    · rfl
    · exact absurd (hsB i j hb) hin

/-- Pointwise boolean agreement on the whole grid gives grid equality. -/
theorem grid_eq_of_all {g h : Grid}
    (hW : ((List.finRange 100).all fun i =>
      (List.finRange 100).all fun j => g i j == h i j) = true) : g = h := by
  funext i j
  exact eq_of_beq (List.all_eq_true.mp
    (List.all_eq_true.mp hW i (List.mem_finRange i)) j (List.mem_finRange j))

end LocalityLemmas

section BlockLemmas

theorem supp_block : supp_in (cells_grid block_cells) 50 51 50 51 :=
  supp_in_cells_grid (by decide)

theorem supp_block_exp : supp_in (cells_grid block_cells) 49 52 49 52 :=
  supp_in_cells_grid (by decide)

theorem block_5050_eq_cells : block_grid 50 50 = cells_grid block_cells := by
  funext i j
  simp only [block_grid, cells_grid, block_cells, List.mem_cons,
    List.not_mem_nil, or_false, Prod.mk.injEq, decide_eq_decide]
  have h51 : (50 : Coord) + 1 = 51 := by decide
  rw [h51]
  tauto

set_option maxRecDepth 10000 in
theorem step_block_5050 :
    step_fun (cells_grid block_cells) = cells_grid block_cells :=
  step_eq_of_window supp_block supp_block_exp
    (by omega) (by omega) (by omega) (by omega) (by decide!)

/-- Toroidal translation maps a 2×2 block to a 2×2 block. -/
theorem shift_block_grid (dr dc a b : Coord) :
    shift_grid dr dc (block_grid a b) = block_grid (a + dr) (b + dc) := by
  funext i j
  simp only [shift_grid, block_grid, decide_eq_decide]
  exact and_congr
    (or_congr sub_eq_iff_eq_add (sub_eq_iff_eq_add.trans (by rw [add_right_comm])))
    (or_congr sub_eq_iff_eq_add (sub_eq_iff_eq_add.trans (by rw [add_right_comm])))

end BlockLemmas

section GliderLemmas

theorem glider_grid_eq_cells : glider_grid = cells_grid glider_cells := by
  funext i j
  simp only [glider_grid, set_cell, dead_grid, cells_grid, glider_cells,
    List.mem_cons, List.not_mem_nil, or_false, Prod.mk.injEq]
  split_ifs <;> simp_all

theorem supp_g0 : supp_in (cells_grid glider_cells) 10 13 10 13 :=
  supp_in_cells_grid (by decide)

theorem supp_g1 : supp_in (cells_grid glider_cells_1) 10 13 10 13 :=
  supp_in_cells_grid (by decide)

theorem supp_g2 : supp_in (cells_grid glider_cells_2) 10 13 10 13 :=
  supp_in_cells_grid (by decide)

theorem supp_g3 : supp_in (cells_grid glider_cells_3) 10 13 10 13 :=
  supp_in_cells_grid (by decide)

theorem supp_g1_exp : supp_in (cells_grid glider_cells_1) 9 14 9 14 :=
  supp_in_cells_grid (by decide)

theorem supp_g2_exp : supp_in (cells_grid glider_cells_2) 9 14 9 14 :=
  supp_in_cells_grid (by decide)

theorem supp_g3_exp : supp_in (cells_grid glider_cells_3) 9 14 9 14 :=
  supp_in_cells_grid (by decide)

theorem supp_g4_exp : supp_in (cells_grid glider_cells_4) 9 14 9 14 :=
  supp_in_cells_grid (by decide)

set_option maxRecDepth 10000 in
theorem step_glider_0 :
    step_fun (cells_grid glider_cells) = cells_grid glider_cells_1 :=
  step_eq_of_window supp_g0 supp_g1_exp
    (by omega) (by omega) (by omega) (by omega) (by decide!)

set_option maxRecDepth 10000 in
theorem step_glider_1 :
    step_fun (cells_grid glider_cells_1) = cells_grid glider_cells_2 :=
  step_eq_of_window supp_g1 supp_g2_exp
    (by omega) (by omega) (by omega) (by omega) (by decide!)

set_option maxRecDepth 10000 in
theorem step_glider_2 :
    step_fun (cells_grid glider_cells_2) = cells_grid glider_cells_3 :=
  step_eq_of_window supp_g2 supp_g3_exp
    (by omega) (by omega) (by omega) (by omega) (by decide!)

set_option maxRecDepth 10000 in
theorem step_glider_3 :
    step_fun (cells_grid glider_cells_3) = cells_grid glider_cells_4 :=
  step_eq_of_window supp_g3 supp_g4_exp
    (by omega) (by omega) (by omega) (by omega) (by decide!)

theorem sub_one_eq_iff {x a b : Coord} (h : a + 1 = b) : x - 1 = a ↔ x = b := by
  rw [sub_eq_iff_eq_add, h]

theorem shift_glider :
    shift_grid 1 1 (cells_grid glider_cells) = cells_grid glider_cells_4 := by
  funext i j
  simp only [shift_grid, cells_grid, glider_cells, glider_cells_4,
    List.mem_cons, List.not_mem_nil, or_false, Prod.mk.injEq, decide_eq_decide]
  exact or_congr
    (and_congr (sub_one_eq_iff (by decide)) (sub_one_eq_iff (by decide)))
    (or_congr
      (and_congr (sub_one_eq_iff (by decide)) (sub_one_eq_iff (by decide)))
      (or_congr
        (and_congr (sub_one_eq_iff (by decide)) (sub_one_eq_iff (by decide)))
        (or_congr
          (and_congr (sub_one_eq_iff (by decide)) (sub_one_eq_iff (by decide)))
          (and_congr (sub_one_eq_iff (by decide)) (sub_one_eq_iff (by decide))))))

end GliderLemmas

section IterateLemmas

/-- The grid component of the state after `k` serial generations is the
`k`-th iterate of the mathematical step function. -/
theorem fst_serial_iterate (k : Nat) :
    ∀ g s : Grid, (serial_generation^[k] (g, s)).1 = step_fun^[k] g := by
  induction k with
  | zero => intro g s; rfl
  | succ k ih =>
    intro g s
    rw [Function.iterate_succ_apply, Function.iterate_succ_apply,
      serial_generation_eq]
    exact ih (step_fun g) (step_fun g)

end IterateLemmas

/-- Claim C4: starting from the grid containing only the 5-cell glider
pattern (cells `(10,11)`, `(11,12)`, `(12,10)`, `(12,11)`, `(12,12)` as
placed by `initialize_glider_grid` with no extra random cells), and any
scratch grid, applying the serial generation update 4 times yields exactly
the same 5-cell glider shape translated by `(1,1)` modulo the toroidal
wrap. -/
theorem claim4_glider_translates (s : Grid) :
    (update_grid_serial^[4] (glider_grid, s)).1 = shift_grid 1 1 glider_grid := by
  rw [update_grid_serial_eq_serial_generation, fst_serial_iterate,
    glider_grid_eq_cells, shift_glider]
  show step_fun (step_fun (step_fun (step_fun (cells_grid glider_cells)))) = _
  rw [step_glider_0, step_glider_1, step_glider_2, step_glider_3]

/-- Claim C5: every grid holding exactly one 2×2 block of 4 ALIVE cells
(upper-left corner anywhere, toroidally) with all other cells DEAD is a
fixed point of the generation update: for every `k ≥ 0` and any scratch
grid, applying the serial update `k` times returns the identical grid. -/
theorem claim5_block_is_still_life (r c : Coord) (s : Grid) (k : Nat) :
    (update_grid_serial^[k] (block_grid r c, s)).1 = block_grid r c := by
  rw [update_grid_serial_eq_serial_generation, fst_serial_iterate]
  have hdec : block_grid r c = shift_grid (r - 50) (c - 50) (block_grid 50 50) := by
    rw [shift_block_grid]
    have h : ∀ x : Coord, 50 + (x - 50) = x := fun x => by
      rw [add_comm, sub_add_cancel]
    rw [h, h]
  have hfix : step_fun (block_grid r c) = block_grid r c := by
    rw [hdec, step_shift, block_5050_eq_cells, step_block_5050]
  exact Function.iterate_fixed hfix k

/-- Claim C3: for every grid and every coordinate `(row, col)`, the neighbor
counter returns the number of ALIVE cells among exactly the 8
toroidally-wrapped Moore neighbors — a list of 8 distinct cells not
containing the cell itself — so the count is between 0 and 8; the same wrap
formula applies at every coordinate (no special edge handling), and in
particular the neighbor set of the corner cell `(0,0)` includes cells
`(99,99)`, `(99,0)` and `(0,99)`. -/
theorem claim3_count_neighbors_correct :
    (∀ (g : Grid) (row col : Coord),
      count_neighbors g row col
        = (neighbor_list row col).countP (fun p => g p.1 p.2) ∧
      count_neighbors g row col ≤ 8 ∧
      (neighbor_list row col).length = 8 ∧
      (neighbor_list row col).Nodup ∧
      (row, col) ∉ neighbor_list row col) ∧
    (99, 99) ∈ neighbor_list 0 0 ∧
    (99, 0) ∈ neighbor_list 0 0 ∧
    (0, 99) ∈ neighbor_list 0 0 := by
  refine ⟨fun g row col => ?_, by decide, by decide, by decide⟩
  refine ⟨count_neighbors_eq_countP g row col, ?_,
    neighbor_list_length row col, neighbor_list_nodup row col,
    neighbor_list_not_self row col⟩
  rw [count_neighbors_eq_countP g row col]
  calc (neighbor_list row col).countP (fun p => g p.1 p.2)
      ≤ (neighbor_list row col).length := List.countP_le_length _
    _ = 8 := neighbor_list_length row col

section CountLemmas

theorem set_fold_apply (C : List (Coord × Coord)) (base : Grid) (i j : Coord) :
    (C.foldl (fun g c => set_cell g c.1 c.2 true) base) i j
      = if (i, j) ∈ C then true else base i j := by
  induction C generalizing base with
  | nil => simp
  | cons c cs ih =>
    rw [List.foldl_cons, ih]
    by_cases hmem : (i, j) ∈ cs
    · simp [hmem]
    · by_cases hc : (i, j) = c
      · subst hc
        simp [hmem, set_cell]
      · have hnc : ¬((i, j) ∈ c :: cs) := by
          simp only [List.mem_cons]
          tauto
        simp only [if_neg hnc, if_neg hmem, set_cell]
        rcases c with ⟨a, b⟩
        have : ¬(i = a ∧ j = b) := by
          intro ⟨h1, h2⟩
          exact hc (by simp [h1, h2])
        simp [this]

theorem start_row_eq : start_row = 45 := rfl

theorem mem_center_iff (i j : Coord) :
    (i, j) ∈ center_cells ↔
      (45 ≤ i.val ∧ i.val < 55) ∧ (45 ≤ j.val ∧ j.val < 55) := by
  constructor
  · intro h
    obtain ⟨d, hd, heq⟩ := List.mem_map.mp h
    obtain ⟨h1, h2⟩ := Prod.mk.injEq .. ▸ heq
    have hd1 := d.1.isLt
    have hd2 := d.2.isLt
    have hv1 := congrArg Fin.val h1
    have hv2 := congrArg Fin.val h2
    simp only [start_row_eq] at hv1 hv2
    constructor
    · constructor <;> omega
    · constructor <;> omega
  · intro ⟨⟨ha, hb⟩, ⟨hc, hd⟩⟩
    refine List.mem_map.mpr
      ⟨(⟨i.val - 45, by omega⟩, ⟨j.val - 45, by omega⟩), ?_, ?_⟩
    · exact List.pair_mem_product.mpr ⟨List.mem_finRange _, List.mem_finRange _⟩
    · refine Prod.ext (Fin.ext ?_) (Fin.ext ?_) <;> simp [start_row_eq] <;> omega

theorem init_grid_closed :
    init_grid = fun i j =>
      decide ((45 ≤ i.val ∧ i.val < 55) ∧ (45 ≤ j.val ∧ j.val < 55)) := by
  funext i j
  rw [init_grid, set_fold_apply]
  by_cases h : (i, j) ∈ center_cells
  · rw [if_pos h]
    exact (decide_eq_true ((mem_center_iff i j).mp h)).symm
  · rw [if_neg h]
    have hnp : ¬((45 ≤ i.val ∧ i.val < 55) ∧ (45 ≤ j.val ∧ j.val < 55)) :=
      fun hp => h ((mem_center_iff i j).mpr hp)
    simp [dead_grid, hnp]

theorem foldl_count_eq {α : Type} (p : α → Bool) (l : List α) (acc : Nat) :
    l.foldl (fun c x => if p x then c + 1 else c) acc = acc + l.countP p := by
  induction l generalizing acc with
  | nil => simp
  | cons x l ih =>
    rw [List.foldl_cons, ih, List.countP_cons]
    by_cases h : p x
    · simp [h]
      omega
    · simp [h]

theorem foldl_add_map_sum {α : Type} (f : α → Nat) (l : List α) (acc : Nat) :
    l.foldl (fun c x => c + f x) acc = acc + (l.map f).sum := by
  induction l generalizing acc with
  | nil => simp
  | cons x l ih =>
    rw [List.foldl_cons, ih, List.map_cons, List.sum_cons]
    omega

theorem count_live_cells_eq_sum (g : Grid) :
    count_live_cells g
      = ((List.finRange 100).map
          (fun i => (List.finRange 100).countP (fun j => g i j))).sum := by
  rw [count_live_cells]
  simp only [foldl_count_eq]
  rw [foldl_add_map_sum]
  simp

end CountLemmas

/-- Claim C7: immediately after grid initialization with the centered
10×10 block policy (all cells DEAD except the 10×10 ALIVE block centered
in the 100×100 grid, rows and columns 45–54), the live-cell count function
returns exactly 100. -/
theorem claim7_initial_live_count : count_live_cells init_grid = 100 := by
  rw [init_grid_closed, count_live_cells_eq_sum]
  decide!

/-- Claim C8: for every density parameter supplied to the random
initialization policy, a density outside the open interval `(0,1)` is
replaced by the default `0.3` — the value is substituted, never rejected
(the handler is total and otherwise keeps the supplied density). -/
theorem claim8_density_fallback (d : ℚ) :
    (d ≤ 0 ∨ 1 ≤ d → clamp_density d = 3 / 10) ∧
    (0 < d → d < 1 → clamp_density d = d) := by
  constructor
  · intro h
    rw [clamp_density, if_pos]
    rcases h with h | h
    · exact Or.inl h
    · exact Or.inr h
  · intro h1 h2
    rw [clamp_density, if_neg]
    rintro (h | h) <;> linarith

/-- Witness for C8: discharged at the out-of-range density `2` and the
in-range density `1/2`. -/
theorem claim8_witness :
    clamp_density 2 = 3 / 10 ∧ clamp_density (1 / 2) = 1 / 2 :=
  ⟨(claim8_density_fallback 2).1 (Or.inr (by norm_num)),
   (claim8_density_fallback (1 / 2)).2 (by norm_num) (by norm_num)⟩

section MeanAccess

theorem mtg0 (s st g snc gnc : ℚ) :
    (mean_times s st g snc gnc).getD ((0 : Fin 5)).val 0 = s := rfl

theorem mtg1 (s st g snc gnc : ℚ) :
    (mean_times s st g snc gnc).getD ((1 : Fin 5)).val 0 = st := rfl

theorem mtg2 (s st g snc gnc : ℚ) :
    (mean_times s st g snc gnc).getD ((2 : Fin 5)).val 0 = g := rfl

theorem mtg3 (s st g snc gnc : ℚ) :
    (mean_times s st g snc gnc).getD ((3 : Fin 5)).val 0 = snc := rfl

theorem mtg4 (s st g snc gnc : ℚ) :
    (mean_times s st g snc gnc).getD ((4 : Fin 5)).val 0 = gnc := rfl

theorem mtn0 (s st g snc gnc : ℚ) :
    (mean_times s st g snc gnc).getD (0 : Nat) 0 = s := rfl

theorem mtn1 (s st g snc gnc : ℚ) :
    (mean_times s st g snc gnc).getD (1 : Nat) 0 = st := rfl

theorem mtn2 (s st g snc gnc : ℚ) :
    (mean_times s st g snc gnc).getD (2 : Nat) 0 = g := rfl

theorem mtn3 (s st g snc gnc : ℚ) :
    (mean_times s st g snc gnc).getD (3 : Nat) 0 = snc := rfl

theorem mtn4 (s st g snc gnc : ℚ) :
    (mean_times s st g snc gnc).getD (4 : Nat) 0 = gnc := rfl

end MeanAccess

/-- Claim C9: for every 5-tuple of mean durations, the benchmark harness
reports as best-performing a variant whose mean is the minimum of the
five, and every variant earlier in the order serial, static, guided,
static-no-lock, guided-no-lock has a strictly larger mean — so on ties the
first variant in that order is reported. -/
theorem claim9_best_is_first_min (s st g snc gnc : ℚ) :
    ∃ i : Fin 5,
      best_version s st g snc gnc = variant_labels.getD i.val "" ∧
      (∀ j : Fin 5, (mean_times s st g snc gnc).getD i.val 0
        ≤ (mean_times s st g snc gnc).getD j.val 0) ∧
      (∀ j : Fin 5, j < i → (mean_times s st g snc gnc).getD j.val 0
        > (mean_times s st g snc gnc).getD i.val 0) := by
  simp only [best_version]
  split_ifs <;>
    first
    | exact ⟨0, rfl,
        by intro j; fin_cases j <;>
          simp only [mtg0, mtg1, mtg2, mtg3, mtg4, mtn0, mtn1, mtn2, mtn3, mtn4] <;>
          linarith,
        by intro j hj; fin_cases j <;> exact absurd hj (by decide)⟩
    | exact ⟨1, rfl,
        by intro j; fin_cases j <;>
          simp only [mtg0, mtg1, mtg2, mtg3, mtg4, mtn0, mtn1, mtn2, mtn3, mtn4] <;>
          linarith,
        by intro j hj; fin_cases j <;>
          first
          | exact absurd hj (by decide)
          | (simp only [mtg0, mtg1, mtg2, mtg3, mtg4, mtn0, mtn1, mtn2, mtn3, mtn4]
             linarith)⟩
    | exact ⟨2, rfl,
        by intro j; fin_cases j <;>
          simp only [mtg0, mtg1, mtg2, mtg3, mtg4, mtn0, mtn1, mtn2, mtn3, mtn4] <;>
          linarith,
        by intro j hj; fin_cases j <;>
          first
          | exact absurd hj (by decide)
          | (simp only [mtg0, mtg1, mtg2, mtg3, mtg4, mtn0, mtn1, mtn2, mtn3, mtn4]
             linarith)⟩
    | exact ⟨3, rfl,
        by intro j; fin_cases j <;>
          simp only [mtg0, mtg1, mtg2, mtg3, mtg4, mtn0, mtn1, mtn2, mtn3, mtn4] <;>
          linarith,
        by intro j hj; fin_cases j <;>
          first
          | exact absurd hj (by decide)
          | (simp only [mtg0, mtg1, mtg2, mtg3, mtg4, mtn0, mtn1, mtn2, mtn3, mtn4]
             linarith)⟩
    | exact ⟨4, rfl,
        by intro j; fin_cases j <;>
          simp only [mtg0, mtg1, mtg2, mtg3, mtg4, mtn0, mtn1, mtn2, mtn3, mtn4] <;>
          linarith,
        by intro j hj; fin_cases j <;>
          first
          | exact absurd hj (by decide)
          | (simp only [mtg0, mtg1, mtg2, mtg3, mtg4, mtn0, mtn1, mtn2, mtn3, mtn4]
             linarith)⟩

/-- Witness for C9: the theorem applied at the concrete means
`(5, 4, 3, 2, 1)` (the guided-no-lock variant is the unique minimum). -/
theorem claim9_witness :
    ∃ i : Fin 5,
      best_version 5 4 3 2 1 = variant_labels.getD i.val "" ∧
      (∀ j : Fin 5, (mean_times 5 4 3 2 1).getD i.val 0
        ≤ (mean_times 5 4 3 2 1).getD j.val 0) ∧
      (∀ j : Fin 5, j < i → (mean_times 5 4 3 2 1).getD j.val 0
        > (mean_times 5 4 3 2 1).getD i.val 0) :=
  claim9_best_is_first_min 5 4 3 2 1

/-- Claim C10: for every update variant (serial or covering-schedule
parallel) and every initial grid, the grid after any number of generations
is independent of the initial contents of the scratch (next) grid: every
cell of the scratch grid is overwritten during each generation's compute
phase before it is copied back, so two runs from the same initial grid with
different scratch contents produce identical grids (in particular after the
driver's full 100-generation `simulate_serial` run). -/
theorem claim10_scratch_grid_irrelevant (g s₁ s₂ : Grid) (k : Nat)
    (sched : Nat → List (Coord × Coord)) (hc : ∀ n, covers (sched n)) :
    (serial_generation^[k] (g, s₁)).1 = (serial_generation^[k] (g, s₂)).1 ∧
    (update_grid_serial^[k] (g, s₁)).1 = (update_grid_serial^[k] (g, s₂)).1 ∧
    (run_sched sched k (g, s₁)).1 = (run_sched sched k (g, s₂)).1 ∧
    (simulate_serial (g, s₁)).1 = (simulate_serial (g, s₂)).1 := by
  refine ⟨?_, ?_, ?_, ?_⟩
  · cases k with
    | zero => rfl
    | succ k => rw [serial_scratch_irrelevant]
  · rw [update_grid_serial_eq_serial_generation]
    cases k with
    | zero => rfl
    | succ k => rw [serial_scratch_irrelevant]
  · cases k with
    | zero => rfl
    | succ k => rw [sched_scratch_irrelevant hc]
  · show (serial_generation^[100] (g, s₁)).1 = (serial_generation^[100] (g, s₂)).1
    rw [serial_scratch_irrelevant 99]

/-- Witness for C10: discharged at the all-DEAD initial grid with the
all-DEAD and all-ALIVE scratch grids, one generation, row-major schedule. -/
theorem claim10_witness :
    (serial_generation^[1] (dead_grid, dead_grid)).1
      = (serial_generation^[1] (dead_grid, fun _ _ => true)).1 ∧
    (update_grid_serial^[1] (dead_grid, dead_grid)).1
      = (update_grid_serial^[1] (dead_grid, fun _ _ => true)).1 ∧
    (run_sched (fun _ => all_cells) 1 (dead_grid, dead_grid)).1
      = (run_sched (fun _ => all_cells) 1 (dead_grid, fun _ _ => true)).1 ∧
    (simulate_serial (dead_grid, dead_grid)).1
      = (simulate_serial (dead_grid, fun _ _ => true)).1 :=
  claim10_scratch_grid_irrelevant dead_grid dead_grid (fun _ _ => true) 1
    (fun _ => all_cells) (fun _ => covers_all_cells)
